import Mathlib

set_option autoImplicit false

namespace StudentApp

/-!
Shallow embedding of `src/app.py`, the Student Record Management System.
The manager (`StudentManager`) holds a pandas DataFrame `self.df`; here the
table is embedded as a `List Student` for frames of the fixed 8-column
schema, together with a dynamic column-keyed model (`DFrame`, below) that
captures pandas' open-column behaviour for `df.loc[mask, key] = value` with
a key outside the schema.
-/

/-- Result of a manager operation. The Python methods return `True` on
success and `False` after showing an error notice (duplicate id for
`add_student`, missing id for `update_student`/`delete_student`); an
exception raised by `to_csv` inside `save_students` propagates out of the
method, modelled as `storageFailure`. -/
inductive OpResult where
  | success
  | alreadyExists
  | notFound
  | storageFailure
deriving DecidableEq

/-- One row of the DataFrame in the fixed 8-column schema. The
`Student.__init__` constructor coerces `student_id` with `str(...)`, so it
is text by construction; `age` and `score` are integers (int64 columns). -/
structure Student where
  student_id : String
  first_name : String
  last_name : String
  age : Int
  grade : String
  email : String
  enrollment_date : String
  score : Int
deriving DecidableEq

/-- Character match for one pattern character under `re.IGNORECASE`: the
dot metacharacter matches any character except a newline, and any other
character matches itself up to case. Only the dot metacharacter of Python
regex syntax is modelled; every theorem about patterns either uses only the
dot or restricts all pattern characters to literals (`regexMetaChars`). -/
def reCharMatch (p c : Char) : Bool :=
  if p = '.' then decide (c ≠ '\n') else p.toLower = c.toLower

/-- Pattern matches at the head of the string (both as char lists). -/
def reMatchHere : List Char → List Char → Bool
  | [], _ => true
  | _ :: _, [] => false
  | p :: ps, c :: cs => reCharMatch p c && reMatchHere ps cs

/-- Unanchored search, as `re.search` used by `pandas.Series.str.contains`
with `case=False`: the pattern matches starting at some position of the
string (including the position at its very end). -/
def reSearch (pat : List Char) : List Char → Bool
  | [] => reMatchHere pat []
  | c :: cs => reMatchHere pat (c :: cs) || reSearch pat cs

/-- Spec-side definition (written from the spec's words, to compare with
the code's regex behaviour): one literal character match up to case. -/
def ciCharMatch (p c : Char) : Bool := p.toLower = c.toLower

/-- Spec-side: the pattern occurs literally at the head of the string. -/
def ciMatchHere : List Char → List Char → Bool
  | [], _ => true
  | _ :: _, [] => false
  | p :: ps, c :: cs => ciCharMatch p c && ciMatchHere ps cs

/-- Spec-side: plain case-insensitive substring containment (the spec's
"contains the substring as a case-insensitive plain substring — not
anchored and not interpreted as a regular expression"). -/
def ciSubstr (pat : List Char) : List Char → Bool
  | [] => ciMatchHere pat []
  | c :: cs => ciMatchHere pat (c :: cs) || ciSubstr pat cs

/-- Python regex metacharacters. A pattern containing none of these is a
plain literal pattern, on which `re.search` is substring search. -/
def regexMetaChars : List Char :=
  ['.', '^', '$', '*', '+', '?', '\x7b', '\x7d', '[', ']', '(', ')', '|', '\\']

/-- Fixed column set of the DataFrame, in order: `load_students` creates
the empty frame with exactly these columns, and every `Student.to_dict`
row has exactly these keys. -/
def colNames : List String :=
  ["student_id", "first_name", "last_name", "age", "grade", "email",
   "enrollment_date", "score"]

/-- Text view of one field, as `df[key].astype(str)`: string cells are
unchanged, integer cells print in decimal (Python `str(int)`). Only valid
for `key ∈ colNames`; on an unknown key the Python code would raise
`KeyError`, so theorems restrict filter keys to `colNames`. -/
def getFieldStr (s : Student) : String → String
  | "student_id" => s.student_id
  | "first_name" => s.first_name
  | "last_name" => s.last_name
  | "age" => toString s.age
  | "grade" => s.grade
  | "email" => s.email
  | "enrollment_date" => s.enrollment_date
  | "score" => toString s.score
  | _ => ""

/-- Membership test `student_id in self.df['student_id'].astype(str).values`
used as the guard of all three mutating methods: exact, case-sensitive
string equality against each row's identifier. -/
def hasStudentId (df : List Student) (id : String) : Bool :=
  df.any (fun r => r.student_id = id)

/-- Embedding of `StudentManager.add_student`. The Python method mutates
`self.df` (concat at the end) and only then calls `save_students`; the pair
returned here is (result reported to the caller, in-memory table after the
call). `saveOk` models whether `df.to_csv` succeeds; when it raises, the
exception propagates (`storageFailure`) but the concat has already
happened. -/
def addStudent (saveOk : Bool) (df : List Student) (s : Student) :
    OpResult × List Student :=
  if hasStudentId df s.student_id then (.alreadyExists, df)
  else
    let df2 := df ++ [s]
    if saveOk then (.success, df2) else (.storageFailure, df2)

/-- One key/value pair of the `updated_data` dict passed to
`update_student`, restricted to the fixed schema with type-correct values
(the dynamic `DFrame` model below covers keys outside the schema). The
Python loop `self.df.loc[mask, key] = value` accepts `student_id` as a key
like any other, so it is present here too. -/
inductive FieldChange where
  | student_id (v : String)
  | first_name (v : String)
  | last_name (v : String)
  | age (v : Int)
  | grade (v : String)
  | email (v : String)
  | enrollment_date (v : String)
  | score (v : Int)
deriving DecidableEq

/-- Field name enum used to speak about which fields a change names. -/
inductive FName where
  | fid
  | ffirst
  | flast
  | fage
  | fgrade
  | femail
  | fdate
  | fscore
deriving DecidableEq

/-- Name of the field a `FieldChange` sets. -/
def changeName : FieldChange → FName
  | .student_id _ => .fid
  | .first_name _ => .ffirst
  | .last_name _ => .flast
  | .age _ => .fage
  | .grade _ => .fgrade
  | .email _ => .femail
  | .enrollment_date _ => .fdate
  | .score _ => .fscore

/-- Projection of one field of a row, used to state frame properties
uniformly over the mixed-type schema. -/
def fieldGet (s : Student) : FName → String ⊕ Int
  | .fid => Sum.inl s.student_id
  | .ffirst => Sum.inl s.first_name
  | .flast => Sum.inl s.last_name
  | .fage => Sum.inr s.age
  | .fgrade => Sum.inl s.grade
  | .femail => Sum.inl s.email
  | .fdate => Sum.inl s.enrollment_date
  | .fscore => Sum.inr s.score

/-- Value a `FieldChange` carries, in the same uniform view. -/
def changeVal : FieldChange → String ⊕ Int
  | .student_id v => Sum.inl v
  | .first_name v => Sum.inl v
  | .last_name v => Sum.inl v
  | .age v => Sum.inr v
  | .grade v => Sum.inl v
  | .email v => Sum.inl v
  | .enrollment_date v => Sum.inl v
  | .score v => Sum.inr v

/-- Set one field of a row, as one iteration of the Python loop
`self.df.loc[mask, key] = value` acts on one masked row. -/
def applyChange (r : Student) : FieldChange → Student
  | .student_id v => { r with student_id := v }
  | .first_name v => { r with first_name := v }
  | .last_name v => { r with last_name := v }
  | .age v => { r with age := v }
  | .grade v => { r with grade := v }
  | .email v => { r with email := v }
  | .enrollment_date v => { r with enrollment_date := v }
  | .score v => { r with score := v }

/-- Apply the whole `updated_data` dict to one masked row, in dict
iteration order. -/
def applyChanges (r : Student) (cs : List FieldChange) : Student :=
  cs.foldl applyChange r

/-- Embedding of `StudentManager.update_student`. The mask
`self.df['student_id'] == student_id` is computed against the table as it
is when the method starts, so each originally-matching row receives all
changes in order; non-matching rows are untouched. As in `add_student`,
the in-memory mutation precedes the `save_students` call. -/
def updateStudent (saveOk : Bool) (df : List Student) (id : String)
    (cs : List FieldChange) : OpResult × List Student :=
  if hasStudentId df id then
    let df2 := df.map (fun r => if r.student_id = id then applyChanges r cs else r)
    if saveOk then (.success, df2) else (.storageFailure, df2)
  else (.notFound, df)

/-- Embedding of `StudentManager.delete_student`:
`self.df = self.df[self.df['student_id'] != student_id]` keeps every row
whose identifier differs, i.e. removes every matching row. -/
def deleteStudent (saveOk : Bool) (df : List Student) (id : String) :
    OpResult × List Student :=
  if hasStudentId df id then
    let df2 := df.filter (fun r => r.student_id ≠ id)
    if saveOk then (.success, df2) else (.storageFailure, df2)
  else (.notFound, df)

/-- Lexicographic (code-point) order on strings as char lists, as Python
string comparison sorts object columns. -/
def lexLE : List Char → List Char → Bool
  | [], _ => true
  | _ :: _, [] => false
  | a :: as, b :: bs => decide (a.toNat < b.toNat) || (a = b && lexLE as bs)

/-- Key comparison of `sort_values(by=k)`: numeric for the int64 columns
`age` and `score`, code-point lexicographic for the text columns
(`enrollment_date` is `YYYY-MM-DD` text, so lexicographic is
chronological). -/
def keyLE (k : String) (a b : Student) : Bool :=
  if k = "age" then decide (a.age ≤ b.age)
  else if k = "score" then decide (a.score ≤ b.score)
  else lexLE (getFieldStr a k).toList (getFieldStr b k).toList

/-- Insert into a sorted list, keeping earlier elements first on ties. -/
def insertOrdered (le : Student → Student → Bool) (x : Student) :
    List Student → List Student
  | [] => [x]
  | y :: ys => if le y x then y :: insertOrdered le x ys else x :: y :: ys

/-- Comparison sort by a key. NOTE: `df.sort_values(by, ascending)` is
called with its default `kind='quicksort'`, which pandas documents as NOT
stable; this model fixes ties in insertion order, but no theorem in this
file relies on the tie order of `sortValues` (see the sort claim, left
unsettled for exactly this reason). -/
def sortValues (k : String) (ascending : Bool) (df : List Student) :
    List Student :=
  let le := if ascending then keyLE k else fun a b => keyLE k b a
  df.foldl (fun acc r => insertOrdered le r acc) []

/-- Embedding of the filter loop of `list_students`: for each
`(key, value)` of the dict in order, a falsy (empty) value is skipped,
otherwise rows are kept when
`df[key].astype(str).str.contains(str(value), case=False)` — an unanchored
case-insensitive regex search of `value` in the field text. -/
def applyFilters (df : List Student) (filters : List (String × String)) :
    List Student :=
  filters.foldl
    (fun acc kv =>
      if kv.2 = "" then acc
      else acc.filter (fun s => reSearch kv.2.toList (getFieldStr s kv.1).toList))
    df

/-- Embedding of `StudentManager.list_students(filters, sort_by, ascending,
min_score)`: filter loop, then `df[df['score'] >= min_score]` when
`min_score is not None`, then `sort_values` when `sort_by` is truthy
(non-`None` and non-empty) and names a column. A pure query; it does not
touch the manager's table. -/
def listStudents (df : List Student) (filters : List (String × String))
    (sortBy : Option String) (ascending : Bool) (minScore : Option Int) :
    List Student :=
  let d1 := applyFilters df filters
  let d2 := match minScore with
    | some m => d1.filter (fun s => decide (m ≤ s.score))
    | none => d1
  match sortBy with
  | some k => if k ≠ "" ∧ colNames.contains k then sortValues k ascending d2 else d2
  | none => d2

/-- Split a character list on a separator, as a line of a CSV file splits
into cells (or a file into lines). Splitting the empty list yields one
empty part, matching the usual split semantics. -/
def splitOnChar (sep : Char) : List Char → List (List Char)
  | [] => [[]]
  | c :: cs =>
    match splitOnChar sep cs with
    | [] => [[c]]
    | r :: rs => if c = sep then [] :: r :: rs else (c :: r) :: rs

/-- Join parts with a separator, as `to_csv` joins cells with commas and
lines with newlines. -/
def joinChar (sep : Char) : List (List Char) → List Char
  | [] => []
  | [x] => x
  | x :: y :: xs => x ++ sep :: joinChar sep (y :: xs)

/-- Decimal digit character for a value below ten. -/
def digitChar (n : Nat) : Char :=
  if n = 0 then '0' else if n = 1 then '1' else if n = 2 then '2'
  else if n = 3 then '3' else if n = 4 then '4' else if n = 5 then '5'
  else if n = 6 then '6' else if n = 7 then '7' else if n = 8 then '8'
  else '9'

/-- Decimal printing of a natural number, most significant digit first,
in front of an accumulator of already-produced lower digits. -/
def natToCharsAux (n : Nat) (acc : List Char) : List Char :=
  if n < 10 then digitChar n :: acc
  else natToCharsAux (n / 10) (digitChar (n % 10) :: acc)
termination_by n
decreasing_by exact Nat.div_lt_self (by omega) (by omega)

/-- Decimal printing of a natural number, as Python `str(int)` prints a
non-negative value. -/
def natToChars (n : Nat) : List Char := natToCharsAux n []

/-- Decimal printing of an integer, as `to_csv` writes an int64 cell. -/
def intToChars (n : Int) : List Char :=
  if n < 0 then '-' :: natToChars (-n).toNat else natToChars n.toNat

/-- Value of a decimal digit character, `none` on any other character. -/
def digitVal (c : Char) : Option Nat :=
  if 48 ≤ c.toNat ∧ c.toNat ≤ 57 then some (c.toNat - 48) else none

/-- Fold decimal digits onto an accumulator; fails on a non-digit. -/
def digitsGo (acc : Nat) : List Char → Option Nat
  | [] => some acc
  | c :: cs =>
    match digitVal c with
    | some d => digitsGo (acc * 10 + d) cs
    | none => none

/-- Parse a non-empty all-digits cell as a natural number, as `read_csv`
reads a cell of an integer column (leading zeros allowed: `042` is 42). -/
def charsToNat (cs : List Char) : Option Nat :=
  if cs = [] then none else digitsGo 0 cs

/-- Parse an optionally-signed decimal integer cell. -/
def charsToInt : List Char → Option Int
  | [] => none
  | c :: rest =>
    if c = '-' then (charsToNat rest).map (fun n => -(n : Int))
    else (charsToNat (c :: rest)).map (fun n => (n : Int))

/-- Cell strings `read_csv` parses as missing values (its default
`na_values`, plus the empty cell). A text field holding one of these would
not round-trip through the real store, so round-trip theorems exclude
them. -/
def naStrings : List String :=
  ["", "#N/A", "#N/A N/A", "#NA", "-1.#IND", "-1.#QNAN", "-NaN", "-nan",
   "1.#IND", "1.#QNAN", "<NA>", "N/A", "NA", "NULL", "NaN", "None", "n/a",
   "nan", "null"]

/-- Cell strings the `read_csv` C parser converts to booleans when a whole
column consists of them (its built-in true/false values). -/
def boolStrings : List String :=
  ["True", "TRUE", "true", "False", "FALSE", "false"]

/-- ASCII decimal digit test, for the numeric-cell recognizer. -/
def isDigitChar (c : Char) : Bool := 48 ≤ c.toNat && c.toNat ≤ 57

/-- Drop one optional leading sign, as the numeric parsers of `read_csv`
do. -/
def skipSign : List Char → List Char
  | '+' :: cs => cs
  | '-' :: cs => cs
  | cs => cs

/-- Longest digit run at the head: its length and the rest. -/
def spanDigits : List Char → Nat × List Char
  | [] => (0, [])
  | c :: cs =>
    if isDigitChar c then
      let r := spanDigits (cs)
      (r.1 + 1, r.2)
    else (0, c :: cs)

/-- Rest of a float after the mantissa: nothing, or an exponent marker
followed by an optionally signed non-empty digit run. -/
def expPart : List Char → Bool
  | [] => true
  | e :: cs =>
    (e = 'e' || e = 'E') &&
      (let r := spanDigits (skipSign cs)
       decide (1 ≤ r.1) && decide (r.2 = []))

/-- Rest of a numeric cell after the leading digit run (of length
`ndigits`): an optional fraction part, then an optional exponent; at least
one digit overall. -/
def mantissaRest (ndigits : Nat) : List Char → Bool
  | '.' :: cs =>
    let r := spanDigits cs
    decide (1 ≤ ndigits + r.1) && expPart r.2
  | cs => decide (1 ≤ ndigits) && expPart cs

/-- Whether a cell is syntactically an integer or float (optionally signed,
optional fraction and exponent), i.e. a cell `read_csv` parses as a number
when the whole column is numeric. `2024-01-01` is not (interior dash), so
dates stay text. -/
def floatLike (cs : List Char) : Bool :=
  let cs1 := skipSign cs
  let r := spanDigits cs1
  decide (cs1 ≠ []) && mantissaRest r.1 r.2

/-- Whether a cell is an optionally signed infinity literal, which the
`read_csv` float parser accepts case-insensitively. -/
def infLike (cs : List Char) : Bool :=
  let low := (skipSign cs).map Char.toLower
  decide (low = ['i', 'n', 'f']) || decide (low = ['i', 'n', 'f', 'i', 'n', 'i', 't', 'y'])

/-- Space or tab, for the surrounding-whitespace trim the numeric parsers
apply. -/
def isSpaceChar (c : Char) : Bool := c = ' ' || c = '\t'

/-- Drop leading spaces and tabs. -/
def dropLeadSpaces : List Char → List Char
  | [] => []
  | c :: cs => if isSpaceChar c then dropLeadSpaces cs else c :: cs

/-- Trim leading and trailing spaces and tabs. -/
def trimSpaces (cs : List Char) : List Char :=
  (dropLeadSpaces (dropLeadSpaces cs).reverse).reverse

/-- Whether `read_csv` type inference may reinterpret this cell instead of
keeping it as text: a missing-value sentinel (exact match), or — after the
whitespace trim the numeric parsers apply — a number, an infinity literal,
or a boolean literal. Inference is column-wise in pandas; this cell-wise
test is exact on files in which no cell is reinterpretable (the domain of
the round-trip theorem) and conservative elsewhere. -/
def reinterpretedCell (cs : List Char) : Bool :=
  naStrings.contains (String.mk cs) ||
    (floatLike (trimSpaces cs) || infLike (trimSpaces cs) ||
      boolStrings.contains (String.mk (trimSpaces cs)))

/-- An identifier field is plain when the CSV layer stores it verbatim: it
is not an `na_values` sentinel (nor empty) and holds no delimiter, quote or
line terminator (`to_csv` would quote such a field, and this model does not
embed the quoting layer). Numeric-looking text such as `042` is fine here:
the `dtype={'student_id': str}` argument exempts the identifier column from
type inference. -/
def plainStr (s : String) : Prop :=
  s ∉ naStrings ∧ ∀ c ∈ s.toList, c ∉ [',', '\n', '\r', '"']

instance (s : String) : Decidable (plainStr s) := by
  unfold plainStr; infer_instance

/-- A non-identifier text field is plain when, additionally, `read_csv`
type inference leaves it as text: not numeric-, infinity- or
boolean-looking and not a missing-value sentinel (`007` or `TRUE` in the
grade column would load back as the number 7 or the boolean True, not as
the original text). -/
def plainTextStr (s : String) : Prop :=
  reinterpretedCell s.toList = false ∧ plainStr s

instance (s : String) : Decidable (plainTextStr s) := by
  unfold plainTextStr; infer_instance

/-- Every text field of the record is plain: the identifier in the
`dtype=str` sense, the other text fields also safe from type inference. -/
def plainStudent (s : Student) : Prop :=
  plainStr s.student_id ∧ plainTextStr s.first_name ∧ plainTextStr s.last_name ∧
  plainTextStr s.grade ∧ plainTextStr s.email ∧ plainTextStr s.enrollment_date

instance (s : Student) : Decidable (plainStudent s) := by
  unfold plainStudent; infer_instance

/-- Cells of one CSV row, in column order, as `to_csv` writes a row. -/
def studentCells (s : Student) : List (List Char) :=
  [s.student_id.toList, s.first_name.toList, s.last_name.toList,
   intToChars s.age, s.grade.toList, s.email.toList,
   s.enrollment_date.toList, intToChars s.score]

/-- Header cells, the fixed column names in order. -/
def headerCells : List (List Char) := colNames.map String.toList

/-- Embedding of `save_students` / `df.to_csv(DATA_FILE, index=False)`:
header line, one line per row, `\n` line terminator including a trailing
one. -/
def saveStudents (rows : List Student) : List Char :=
  joinChar '\n'
    (joinChar ',' headerCells :: rows.map (fun r => joinChar ',' (studentCells r)))
  ++ ['\n']

/-- A loaded table: the column names read from the header row, plus the
parsed records. -/
structure CsvTable where
  cols : List String
  rows : List Student
deriving DecidableEq

/-- Whether any of the five non-identifier text cells of a row is subject
to `read_csv` type inference. -/
def rowReinterpreted (fn ln gr em ed : List Char) : Bool :=
  reinterpretedCell fn || reinterpretedCell ln || reinterpretedCell gr ||
    reinterpretedCell em || reinterpretedCell ed

/-- Parse one data line: split into cells; a row of the fixed shape keeps
`student_id` as raw text (the `dtype={'student_id': str}` passed to
`read_csv` exempts exactly that column from type inference — no numeric
reinterpretation of the identifier) and parses `age`/`score` as integers.
`none` models the frame shapes outside this typed embedding: wrong arity,
non-integer `age`/`score` cells (pandas would surface object/float
columns), and rows whose other text cells type inference would reinterpret
(a grade `007` loads as the number 7, a grade `TRUE` as a boolean — such
frames are not tables of text-valued records). Pandas applies inference
column-wise; this row-wise test coincides with it on files in which no
cell is reinterpretable, and is conservative (rejects more) elsewhere. -/
def parseRow (line : List Char) : Option Student :=
  match splitOnChar ',' line with
  | [sid, fn, ln, ag, gr, em, ed, sc] =>
    if rowReinterpreted fn ln gr em ed then none
    else
      match charsToInt ag, charsToInt sc with
      | some a, some s =>
        some ⟨String.mk sid, String.mk fn, String.mk ln, a, String.mk gr,
              String.mk em, String.mk ed, s⟩
      | _, _ => none
  | _ => none

/-- Parse all data lines; fails when any line falls outside the typed
embedding. -/
def parseRows : List (List Char) → Option (List Student)
  | [] => some []
  | l :: ls =>
    match parseRow l, parseRows ls with
    | some r, some rs => some (r :: rs)
    | _, _ => none

/-- Embedding of `load_students`: with no backing file (`none`), an empty
frame with the fixed column set in the fixed order; otherwise `read_csv`:
blank lines are skipped (its default `skip_blank_lines`), the first
remaining line is the header, the rest are data rows. A file with no lines
at all raises `EmptyDataError`, modelled as `none`. -/
def loadStudents : Option (List Char) → Option CsvTable
  | none => some ⟨colNames, []⟩
  | some content =>
    match (splitOnChar '\n' content).filter (fun l => l ≠ []) with
    | [] => none
    | header :: rest =>
      match parseRows rest with
      | some rows => some ⟨(splitOnChar ',' header).map String.mk, rows⟩
      | none => none

/-- A pandas cell value for the dynamic (open-column) frame model: text,
int64, or missing. -/
inductive PdVal where
  | str (v : String)
  | int (v : Int)
  | nan
deriving DecidableEq

/-- The `astype(str)` view of a cell (`NaN` prints as `nan`). -/
def pdToStr : PdVal → String
  | .str v => v
  | .int n => toString n
  | .nan => "nan"

/-- Cell of a row at a column key; a key the row does not carry reads as
missing. -/
def rowGet (r : List (String × PdVal)) (k : String) : PdVal :=
  match r.find? (fun kv => kv.1 = k) with
  | some kv => kv.2
  | none => .nan

/-- Set a cell of a row, appending the key when the row lacks it. -/
def setKey (r : List (String × PdVal)) (k : String) (v : PdVal) :
    List (String × PdVal) :=
  if r.any (fun kv => kv.1 = k) then
    r.map (fun kv => if kv.1 = k then (k, v) else kv)
  else r ++ [(k, v)]

/-- Dynamic model of the DataFrame: an explicit column list and rows as
association lists keyed by column name. This captures the behaviour the
typed `List Student` model cannot: `df.loc[mask, key] = value` with a key
outside the current columns grows the frame by a new column. -/
structure DFrame where
  columns : List String
  rows : List (List (String × PdVal))
deriving DecidableEq

/-- One assignment `df.loc[mask, k] = v`: masked rows get the cell set;
when `k` is a new column it is appended to the column list and unmasked
rows receive a missing value in it. -/
def dfSetColMask (df : DFrame) (mask : List Bool) (k : String) (v : PdVal) :
    DFrame :=
  ⟨if df.columns.contains k then df.columns else df.columns ++ [k],
   (df.rows.zip mask).map (fun rm =>
     if rm.2 then setKey rm.1 k v
     else if df.columns.contains k then rm.1 else rm.1 ++ [(k, PdVal.nan)])⟩

/-- Embedding of `StudentManager.update_student` over the dynamic frame:
the guard is the `astype(str)` membership test; the mask
`self.df['student_id'] == student_id` (raw equality against the text id)
is computed once, before the loop over `updated_data.items()`, and each
item is one `dfSetColMask` assignment. The persist step is irrelevant to
the column claim and omitted here (see the typed model for persistence). -/
def dfUpdateStudent (df : DFrame) (id : String)
    (changes : List (String × PdVal)) : Bool × DFrame :=
  if df.rows.any (fun r => pdToStr (rowGet r "student_id") = id) then
    let mask := df.rows.map (fun r => decide (rowGet r "student_id" = PdVal.str id))
    (true, changes.foldl (fun acc kv => dfSetColMask acc mask kv.1 kv.2) df)
  else (false, df)

/-! Theorems. -/

/-- Sample records used by concrete witnesses and counterexamples. -/
def stA : Student := ⟨"042", "Ann", "Lee", 20, "A", "ann@x.com", "2024-01-01", 80⟩

/-- Second sample record. -/
def stB : Student := ⟨"7", "Anna", "Ng", 21, "B", "anna@x.com", "2024-02-02", 79⟩

/-- Third sample record. -/
def stC : Student := ⟨"9", "Bob", "Om", 22, "B", "bob@x.com", "2024-03-03", 80⟩

/-- Fourth sample record, sharing the identifier of `stA`. -/
def stDup : Student := ⟨"042", "Zoe", "Wu", 23, "C", "zoe@x.com", "2024-04-04", 60⟩

theorem hasStudentId_eq_true_iff (df : List Student) (id : String) :
    hasStudentId df id = true ↔ id ∈ df.map Student.student_id := by
  unfold hasStudentId
  rw [List.any_eq_true]
  constructor
  · rintro ⟨r, hr, hid⟩
    exact List.mem_map.mpr ⟨r, hr, by simpa using hid⟩
  · intro h
    rcases List.mem_map.mp h with ⟨r, hr, he⟩
    exact ⟨r, hr, by simp [he]⟩

theorem hasStudentId_eq_false_iff (df : List Student) (id : String) :
    hasStudentId df id = false ↔ id ∉ df.map Student.student_id := by
  rw [← hasStudentId_eq_true_iff]
  cases hasStudentId df id <;> simp

/-- C1: uniqueness of identifiers is preserved by add — on a table with
pairwise-distinct identifiers, adding a record whose identifier is already
present (exact text comparison) reports the duplicate and leaves the table
unchanged; adding a fresh identifier appends the record at the end, keeps
the identifiers pairwise distinct, and succeeds when the persist step
succeeds. -/
theorem c1_add_unique (saveOk : Bool) (df : List Student) (s : Student)
    (hnd : (df.map Student.student_id).Nodup) :
    (s.student_id ∈ df.map Student.student_id →
        addStudent saveOk df s = (OpResult.alreadyExists, df)) ∧
    (s.student_id ∉ df.map Student.student_id →
        (addStudent saveOk df s).2 = df ++ [s] ∧
        ((addStudent saveOk df s).2.map Student.student_id).Nodup ∧
        (saveOk = true → (addStudent saveOk df s).1 = OpResult.success)) := by
  constructor
  · intro h
    have hg : hasStudentId df s.student_id = true := (hasStudentId_eq_true_iff _ _).mpr h
    simp [addStudent, hg]
  · intro h
    have hg : hasStudentId df s.student_id = false := (hasStudentId_eq_false_iff _ _).mpr h
    refine ⟨?_, ?_, ?_⟩
    · cases saveOk <;> simp [addStudent, hg]
    · have h2 : (addStudent saveOk df s).2 = df ++ [s] := by
        cases saveOk <;> simp [addStudent, hg]
      rw [h2]
      simp [List.nodup_append, hnd, h]
    · intro hs
      subst hs
      simp [addStudent, hg]

/-- C1 witness: on the singleton table `[stA]`, re-adding `stA` reports a
duplicate and leaves the table unchanged, while adding `stB` appends it. -/
theorem c1_add_unique_witness :
    addStudent true [stA] stA = (OpResult.alreadyExists, [stA]) ∧
    (addStudent true [stA] stB).2 = [stA] ++ [stB] := by
  exact ⟨(c1_add_unique true [stA] stA (by decide)).1 (by decide),
         ((c1_add_unique true [stA] stB (by decide)).2 (by decide)).1⟩

/-- C3 counterexample: adding a fresh record to the empty table while the
persist step fails propagates a storage failure, but the in-memory table is
NOT left as it was before the attempt — it now holds the appended record,
so the claim's rollback guarantee is false on the code. -/
theorem c3_persist_counterexample :
    addStudent false [] stA = (OpResult.storageFailure, [stA]) ∧
    [stA] ≠ ([] : List Student) := by decide

/-- C3 (amended): on a persist failure the error is propagated to the
caller (never silently swallowed), but no rollback occurs — the in-memory
table after the failed add/update/delete equals the table after the same
mutation with a succeeding persist, i.e. it holds the fully applied
change. -/
theorem c3_persist_no_rollback (df : List Student) (s : Student) (id : String)
    (cs : List FieldChange) :
    (hasStudentId df s.student_id = false →
        (addStudent false df s).1 = OpResult.storageFailure ∧
        (addStudent false df s).2 = (addStudent true df s).2) ∧
    (hasStudentId df id = true →
        ((updateStudent false df id cs).1 = OpResult.storageFailure ∧
         (updateStudent false df id cs).2 = (updateStudent true df id cs).2) ∧
        ((deleteStudent false df id).1 = OpResult.storageFailure ∧
         (deleteStudent false df id).2 = (deleteStudent true df id).2)) := by
  refine ⟨fun h => ?_, fun h => ?_⟩ <;>
    simp [addStudent, updateStudent, deleteStudent, h]

/-- C3 witness: the no-rollback behaviour at a concrete table. -/
theorem c3_persist_no_rollback_witness :
    ((addStudent false [stA] stB).1 = OpResult.storageFailure ∧
     (addStudent false [stA] stB).2 = (addStudent true [stA] stB).2) ∧
    (((updateStudent false [stA] "042" [FieldChange.score 91]).1 = OpResult.storageFailure ∧
      (updateStudent false [stA] "042" [FieldChange.score 91]).2 =
        (updateStudent true [stA] "042" [FieldChange.score 91]).2) ∧
     ((deleteStudent false [stA] "042").1 = OpResult.storageFailure ∧
      (deleteStudent false [stA] "042").2 = (deleteStudent true [stA] "042").2)) := by
  exact ⟨(c3_persist_no_rollback [stA] stB "042" [FieldChange.score 91]).1 (by decide),
         (c3_persist_no_rollback [stA] stB "042" [FieldChange.score 91]).2 (by decide)⟩

/-- C8: with `min_score` provided (and no other filters or sort), `list`
retains exactly the records with `score ≥ min_score`, in order; a record
whose score equals `min_score` is included, and one whose score equals
`min_score - 1` is excluded. -/
theorem c8_min_score (df : List Student) (m : Int) (s : Student) (hmem : s ∈ df) :
    listStudents df [] none true (some m) =
      df.filter (fun r => decide (m ≤ r.score)) ∧
    (s.score = m → s ∈ listStudents df [] none true (some m)) ∧
    (s.score = m - 1 → s ∉ listStudents df [] none true (some m)) ∧
    (s ∈ listStudents df [] none true (some m) ↔ m ≤ s.score) := by
  have heq : listStudents df [] none true (some m) =
      df.filter (fun r => decide (m ≤ r.score)) := rfl
  refine ⟨heq, ?_, ?_, ?_⟩ <;> rw [heq]
  · intro hs
    exact List.mem_filter.mpr ⟨hmem, by simp [hs]⟩
  · intro hs hcon
    have h2 := (List.mem_filter.mp hcon).2
    have h3 : m ≤ s.score := by simpa using h2
    omega
  · constructor
    · intro hcon
      have := (List.mem_filter.mp hcon).2
      simpa using this
    · intro hle
      exact List.mem_filter.mpr ⟨hmem, by simp [hle]⟩

/-- C8 witness: with `min_score = 80`, the record with score 80 is kept
and the record with score 79 is dropped. -/
theorem c8_min_score_witness :
    (stA.score = 80 → stA ∈ listStudents [stA, stB] [] none true (some 80)) ∧
    (stB.score = 80 - 1 → stB ∉ listStudents [stA, stB] [] none true (some 80)) := by
  exact ⟨(c8_min_score [stA, stB] 80 stA (by decide)).2.1,
         (c8_min_score [stA, stB] 80 stB (by decide)).2.2.1⟩

/-- C10 (implicit): a successful delete removes every record whose
identifier matches — even on a table with several such records — keeps the
relative order of the remaining records (a sublist of the original), and
preserves the multiplicity of every non-matching record. -/
theorem c10_delete_all (saveOk : Bool) (df : List Student) (id : String)
    (h : id ∈ df.map Student.student_id) :
    (∀ r ∈ (deleteStudent saveOk df id).2, r.student_id ≠ id) ∧
    List.Sublist (deleteStudent saveOk df id).2 df ∧
    (∀ r : Student, r.student_id ≠ id →
        (deleteStudent saveOk df id).2.count r = df.count r) := by
  have hg : hasStudentId df id = true := (hasStudentId_eq_true_iff _ _).mpr h
  have h2 : (deleteStudent saveOk df id).2 =
      df.filter (fun r => decide (r.student_id ≠ id)) := by
    cases saveOk <;> simp [deleteStudent, hg]
  rw [h2]
  refine ⟨?_, List.filter_sublist df, ?_⟩
  · intro r hr
    have := (List.mem_filter.mp hr).2
    simpa using this
  · intro r hr
    exact List.count_filter (by simpa using hr)

/-- C10 witness: deleting `"042"` from a table holding two records with
that identifier leaves no record carrying it and keeps `stB` once. -/
theorem c10_delete_all_witness :
    (∀ r ∈ (deleteStudent true [stA, stB, stDup] "042").2, r.student_id ≠ "042") ∧
    List.Sublist (deleteStudent true [stA, stB, stDup] "042").2 [stA, stB, stDup] ∧
    (stB.student_id ≠ "042" →
        (deleteStudent true [stA, stB, stDup] "042").2.count stB =
          ([stA, stB, stDup] : List Student).count stB) := by
  have h := c10_delete_all true [stA, stB, stDup] "042" (by decide)
  exact ⟨h.1, h.2.1, fun hne => h.2.2 stB hne⟩

theorem applyChanges_frame (f : FName) :
    ∀ (cs : List FieldChange) (r : Student),
      (∀ c ∈ cs, changeName c ≠ f) →
      fieldGet (applyChanges r cs) f = fieldGet r f := by
  intro cs
  induction cs with
  | nil => intro r _; rfl
  | cons c cs ih =>
    intro r h
    have h1 : changeName c ≠ f := h c (List.mem_cons_self c cs)
    have h2 : ∀ x ∈ cs, changeName x ≠ f := fun x hx => h x (List.mem_cons_of_mem c hx)
    show fieldGet (applyChanges (applyChange r c) cs) f = fieldGet r f
    rw [ih (applyChange r c) h2]
    cases c <;> cases f <;> first | rfl | exact absurd rfl h1

theorem applyChanges_sets :
    ∀ (cs : List FieldChange) (r : Student) (c : FieldChange),
      (cs.map changeName).Nodup → c ∈ cs →
      fieldGet (applyChanges r cs) (changeName c) = changeVal c := by
  intro cs
  induction cs with
  | nil => intro r c _ hc; cases hc
  | cons d cs ih =>
    intro r c hnd hc
    have hnd' : (changeName d :: cs.map changeName).Nodup := by simpa using hnd
    rcases List.mem_cons.mp hc with rfl | hmem
    · have hhead : changeName c ∉ cs.map changeName := (List.nodup_cons.mp hnd').1
      have hnotin : ∀ x ∈ cs, changeName x ≠ changeName c := by
        intro x hx heq
        exact hhead (heq ▸ List.mem_map_of_mem changeName hx)
      show fieldGet (applyChanges (applyChange r c) cs) (changeName c) = changeVal c
      rw [applyChanges_frame (changeName c) cs (applyChange r c) hnotin]
      cases c <;> rfl
    · exact ih (applyChange r d) c (List.nodup_cons.mp hnd').2 hmem

/-- C2 counterexample: the claim promises that the identifier field is left
unchanged by every `update` call, but a `changes` mapping that names
`student_id` mutates it — `update("1", \x7bstudent_id: "2"\x7d)` succeeds and
the record's identifier becomes `"2"`. -/
theorem c2_update_counterexample :
    (updateStudent true [⟨"1", "Ann", "Lee", 20, "A", "ann@x.com", "2024-01-01", 80⟩]
        "1" [FieldChange.student_id "2"]).1 = OpResult.success ∧
    (updateStudent true [⟨"1", "Ann", "Lee", 20, "A", "ann@x.com", "2024-01-01", 80⟩]
        "1" [FieldChange.student_id "2"]).2.map Student.student_id = ["2"] := by
  decide

/-- C2 (amended): provided the `changes` mapping does not name the
identifier field, update is partial and frame-preserving — a missing
identifier yields `NotFound` with the table unchanged; otherwise every row
whose identifier differs is untouched, and a matching row keeps its
identifier, keeps every field not named in `changes`, and takes the given
value at every field `changes` names. -/
theorem c2_update_frame (saveOk : Bool) (df : List Student) (id : String)
    (cs : List FieldChange)
    (hid : ∀ c ∈ cs, changeName c ≠ FName.fid)
    (hnd : (cs.map changeName).Nodup) :
    (id ∉ df.map Student.student_id →
        updateStudent saveOk df id cs = (OpResult.notFound, df)) ∧
    (id ∈ df.map Student.student_id →
        (updateStudent true df id cs).1 = OpResult.success ∧
        List.Forall₂ (fun r rr =>
            (r.student_id ≠ id → rr = r) ∧
            (r.student_id = id →
              rr.student_id = r.student_id ∧
              (∀ f : FName, (∀ c ∈ cs, changeName c ≠ f) →
                  fieldGet rr f = fieldGet r f) ∧
              (∀ c ∈ cs, fieldGet rr (changeName c) = changeVal c)))
          df (updateStudent saveOk df id cs).2) := by
  constructor
  · intro h
    have hg : hasStudentId df id = false := (hasStudentId_eq_false_iff _ _).mpr h
    simp [updateStudent, hg]
  · intro h
    have hg : hasStudentId df id = true := (hasStudentId_eq_true_iff _ _).mpr h
    constructor
    · simp [updateStudent, hg]
    · have h2 : (updateStudent saveOk df id cs).2 =
          df.map (fun r => if r.student_id = id then applyChanges r cs else r) := by
        cases saveOk <;> simp [updateStudent, hg]
      rw [h2, List.forall₂_map_right_iff, List.forall₂_same]
      intro r _
      by_cases hr : r.student_id = id
      · rw [if_pos hr]
        refine ⟨fun hcon => absurd hr hcon, fun _ => ⟨?_, ?_, ?_⟩⟩
        · have := applyChanges_frame FName.fid cs r hid
          simpa [fieldGet] using this
        · exact fun f hf => applyChanges_frame f cs r hf
        · exact fun c hc => applyChanges_sets cs r c hnd hc
      · rw [if_neg hr]
        exact ⟨fun _ => rfl, fun hcon => absurd hcon hr⟩

/-- C2 witness: updating the score of `stA` in `[stA, stB]` succeeds and
the frame conditions hold at that concrete input. -/
theorem c2_update_frame_witness :
    (updateStudent true [stA, stB] "042" [FieldChange.score 91]).1 = OpResult.success ∧
    List.Forall₂ (fun r rr =>
        (r.student_id ≠ "042" → rr = r) ∧
        (r.student_id = "042" →
          rr.student_id = r.student_id ∧
          (∀ f : FName, (∀ c ∈ [FieldChange.score 91], changeName c ≠ f) →
              fieldGet rr f = fieldGet r f) ∧
          (∀ c ∈ [FieldChange.score 91], fieldGet rr (changeName c) = changeVal c)))
      [stA, stB] (updateStudent true [stA, stB] "042" [FieldChange.score 91]).2 := by
  exact (c2_update_frame true [stA, stB] "042" [FieldChange.score 91]
           (by decide) (by decide)).2 (by decide)

theorem listStudents_default (df : List Student) :
    listStudents df [] none true none = df := rfl

theorem filter_remove_length (id : String) :
    ∀ (df : List Student),
      (df.map Student.student_id).Nodup →
      id ∈ df.map Student.student_id →
      (df.filter (fun r => decide (r.student_id ≠ id))).length + 1 = df.length := by
  intro df
  induction df with
  | nil => intro _ h; simp at h
  | cons r rest ih =>
    intro hnd h
    have hnd' : (r.student_id :: rest.map Student.student_id).Nodup := by simpa using hnd
    by_cases hr : r.student_id = id
    · have hnotin : ∀ x ∈ rest, ¬x.student_id = id := by
        intro x hx hxeq
        exact (List.nodup_cons.mp hnd').1 (hr ▸ hxeq ▸ List.mem_map_of_mem Student.student_id hx)
      have hkeep : rest.filter (fun x => decide (x.student_id ≠ id)) = rest :=
        List.filter_eq_self.mpr (fun x hx => by simpa using hnotin x hx)
      have hcond : (decide (r.student_id ≠ id)) = false := by simpa using hr
      rw [List.filter_cons, hcond]
      simpa using congrArg List.length hkeep
    · have hmem : id ∈ rest.map Student.student_id := by
        rw [List.map_cons] at h
        rcases List.mem_cons.mp h with he | hm
        · exact absurd he.symm hr
        · exact hm
      have hlen := ih (List.nodup_cons.mp hnd').2 hmem
      have hstep : (r :: rest).filter (fun x => decide (x.student_id ≠ id)) =
          r :: rest.filter (fun x => decide (x.student_id ≠ id)) := by
        simp [List.filter_cons, hr]
      rw [hstep, List.length_cons, List.length_cons]
      omega

/-- C6: delete contract on a table with pairwise-distinct identifiers — a
missing identifier yields `NotFound` with the table unchanged; otherwise
the delete succeeds, removes exactly one record (the matching one: the
length drops by one, no matching record remains, and every non-matching
record survives in order), a subsequent plain `list()` shows no record
with that identifier, and a second delete of the same identifier yields
`NotFound`. -/
theorem c6_delete_contract (saveOk : Bool) (df : List Student) (id : String)
    (hnd : (df.map Student.student_id).Nodup) :
    (id ∉ df.map Student.student_id →
        deleteStudent saveOk df id = (OpResult.notFound, df)) ∧
    (id ∈ df.map Student.student_id →
        (deleteStudent true df id).1 = OpResult.success ∧
        (deleteStudent true df id).2.length + 1 = df.length ∧
        (∀ r ∈ (deleteStudent true df id).2, r.student_id ≠ id) ∧
        (∀ r ∈ df, r.student_id ≠ id → r ∈ (deleteStudent true df id).2) ∧
        List.Sublist (deleteStudent true df id).2 df ∧
        (∀ r ∈ listStudents (deleteStudent true df id).2 [] none true none,
            r.student_id ≠ id) ∧
        deleteStudent saveOk ((deleteStudent true df id).2) id =
          (OpResult.notFound, (deleteStudent true df id).2)) := by
  constructor
  · intro h
    have hg : hasStudentId df id = false := (hasStudentId_eq_false_iff _ _).mpr h
    simp [deleteStudent, hg]
  · intro h
    have hg : hasStudentId df id = true := (hasStudentId_eq_true_iff _ _).mpr h
    have h2 : (deleteStudent true df id).2 =
        df.filter (fun r => decide (r.student_id ≠ id)) := by
      simp [deleteStudent, hg]
    have hnomatch : ∀ r ∈ (deleteStudent true df id).2, r.student_id ≠ id := by
      rw [h2]
      intro r hr
      have := (List.mem_filter.mp hr).2
      simpa using this
    have hnf : hasStudentId ((deleteStudent true df id).2) id = false := by
      rw [hasStudentId_eq_false_iff]
      intro hcon
      rcases List.mem_map.mp hcon with ⟨r, hr, he⟩
      exact hnomatch r hr he
    refine ⟨by simp [deleteStudent, hg], ?_, hnomatch, ?_, ?_, ?_, ?_⟩
    · rw [h2]; exact filter_remove_length id df hnd h
    · intro r hr hne
      rw [h2]
      exact List.mem_filter.mpr ⟨hr, by simpa using hne⟩
    · rw [h2]; exact List.filter_sublist df
    · rw [listStudents_default]; exact hnomatch
    · have hgen : ∀ t : List Student, hasStudentId t id = false →
          deleteStudent saveOk t id = (OpResult.notFound, t) := by
        intro t ht
        simp [deleteStudent, ht]
      exact hgen _ hnf

/-- C6 witness: deleting `"042"` from `[stA, stB]` succeeds; the remaining
table has no record with that identifier and a second delete reports
`NotFound`. -/
theorem c6_delete_contract_witness :
    (deleteStudent true [stA, stB] "042").1 = OpResult.success ∧
    (deleteStudent true [stA, stB] "042").2.length + 1 = ([stA, stB] : List Student).length ∧
    (∀ r ∈ (deleteStudent true [stA, stB] "042").2, r.student_id ≠ "042") ∧
    deleteStudent true ((deleteStudent true [stA, stB] "042").2) "042" =
      (OpResult.notFound, (deleteStudent true [stA, stB] "042").2) := by
  have h := (c6_delete_contract true [stA, stB] "042" (by decide)).2 (by decide)
  exact ⟨h.1, h.2.1, h.2.2.1, h.2.2.2.2.2.2⟩

theorem reMatchHere_eq_ciMatchHere :
    ∀ (pat s : List Char), '.' ∉ pat → reMatchHere pat s = ciMatchHere pat s := by
  intro pat
  induction pat with
  | nil => intro s _; rfl
  | cons p ps ih =>
    intro s h
    cases s with
    | nil => rfl
    | cons c cs =>
      have hp : p ≠ '.' := fun he => h (he ▸ List.mem_cons_self p ps)
      have hps : '.' ∉ ps := fun hm => h (List.mem_cons_of_mem p hm)
      show (reCharMatch p c && reMatchHere ps cs) = (ciCharMatch p c && ciMatchHere ps cs)
      rw [ih cs hps]
      have : reCharMatch p c = ciCharMatch p c := by
        simp [reCharMatch, ciCharMatch, hp]
      rw [this]

theorem reSearch_eq_ciSubstr :
    ∀ (s pat : List Char), '.' ∉ pat → reSearch pat s = ciSubstr pat s := by
  intro s
  induction s with
  | nil =>
    intro pat h
    show reMatchHere pat [] = ciMatchHere pat []
    exact reMatchHere_eq_ciMatchHere pat [] h
  | cons c cs ih =>
    intro pat h
    show (reMatchHere pat (c :: cs) || reSearch pat cs) =
        (ciMatchHere pat (c :: cs) || ciSubstr pat cs)
    rw [reMatchHere_eq_ciMatchHere _ _ h, ih pat h]

theorem list_all_congr {α : Type} (p q : α → Bool) :
    ∀ (l : List α), (∀ a ∈ l, p a = q a) → l.all p = l.all q := by
  intro l
  induction l with
  | nil => intro _; rfl
  | cons a l ih =>
    intro h
    rw [List.all_cons, List.all_cons, h a (List.mem_cons_self a l),
        ih (fun x hx => h x (List.mem_cons_of_mem a hx))]

theorem applyFilters_eq_filter :
    ∀ (fs : List (String × String)) (df : List Student),
      applyFilters df fs =
        df.filter (fun s =>
          fs.all (fun kv =>
            kv.2 = "" || reSearch kv.2.toList (getFieldStr s kv.1).toList)) := by
  intro fs
  induction fs with
  | nil => intro df; simp [applyFilters]
  | cons kv fs ih =>
    intro df
    by_cases hkv : kv.2 = ""
    · have hstep : applyFilters df (kv :: fs) = applyFilters df fs := by
        simp [applyFilters, hkv]
      rw [hstep, ih df]
      apply List.filter_congr
      intro r _
      simp [hkv]
    · have hstep : applyFilters df (kv :: fs) =
          applyFilters
            (df.filter (fun s => reSearch kv.2.toList (getFieldStr s kv.1).toList))
            fs := by
        simp [applyFilters, hkv]
      rw [hstep, ih, List.filter_filter]
      apply List.filter_congr
      intro r _
      simp [hkv, Bool.and_comm]

/-- C4 counterexample: the claim says filter substrings are not interpreted
as regular expressions, but `str.contains` defaults to regex matching — the
filter value `b.b` retains the record whose `first_name` is `Bob` (the dot
matches `o`), although `b.b` is not a plain case-insensitive substring of
`Bob`. -/
theorem c4_filter_counterexample :
    listStudents [stC] [("first_name", "b.b")] none true none = [stC] ∧
    ciSubstr "b.b".toList "Bob".toList = false := by decide

/-- C4 (amended): filters behave as described — case-insensitive,
unanchored, AND-combined, order-preserving — provided each non-empty filter
value contains no regex metacharacter; `str.contains` interprets the value
as a regular expression (pandas default `regex=True`), which coincides with
plain substring containment exactly on metacharacter-free values. -/
theorem c4_filter_substring (df : List Student) (fs : List (String × String))
    (_hkeys : ∀ kv ∈ fs, kv.1 ∈ colNames)
    (hmeta : ∀ kv ∈ fs, ∀ c ∈ kv.2.toList, c ∉ regexMetaChars) :
    listStudents df fs none true none =
      df.filter (fun s =>
        fs.all (fun kv =>
          kv.2 = "" || ciSubstr kv.2.toList (getFieldStr s kv.1).toList)) ∧
    List.Sublist (listStudents df fs none true none) df := by
  have h1 : listStudents df fs none true none = applyFilters df fs := rfl
  rw [h1, applyFilters_eq_filter]
  constructor
  · apply List.filter_congr
    intro r _
    apply list_all_congr
    intro kv hkv
    have hdot : '.' ∉ kv.2.toList := fun hc =>
      hmeta kv hkv '.' hc (by decide)
    rw [reSearch_eq_ciSubstr _ _ hdot]
  · exact List.filter_sublist df

/-- C4 witness: filtering `first_name` by `ann` over records named `Ann`,
`Anna`, `Bob` retains exactly the first two, in their original order. -/
theorem c4_filter_substring_witness :
    listStudents [stA, stB, stC] [("first_name", "ann")] none true none =
      ([stA, stB, stC] : List Student).filter (fun s =>
        ([("first_name", "ann")] : List (String × String)).all (fun kv =>
          kv.2 = "" || ciSubstr kv.2.toList (getFieldStr s kv.1).toList)) ∧
    ([stA, stB, stC] : List Student).filter (fun s =>
        ([("first_name", "ann")] : List (String × String)).all (fun kv =>
          kv.2 = "" || ciSubstr kv.2.toList (getFieldStr s kv.1).toList)) = [stA, stB] := by
  exact ⟨(c4_filter_substring [stA, stB, stC] [("first_name", "ann")]
            (by decide) (by decide)).1, by decide⟩

theorem natToCharsAux_eq (n : Nat) :
    ∀ acc, natToCharsAux n acc = natToChars n ++ acc := by
  induction n using Nat.strong_induction_on with
  | _ n ih =>
    intro acc
    by_cases h : n < 10
    · have h1 : natToCharsAux n acc = digitChar n :: acc := by
        conv_lhs => rw [natToCharsAux]
        rw [if_pos h]
      have h2 : natToChars n = [digitChar n] := by
        rw [natToChars]
        conv_lhs => rw [natToCharsAux]
        rw [if_pos h]
      rw [h1, h2]
      rfl
    · have hlt : n / 10 < n := Nat.div_lt_self (by omega) (by omega)
      have h1 : natToCharsAux n acc = natToCharsAux (n / 10) (digitChar (n % 10) :: acc) := by
        conv_lhs => rw [natToCharsAux]
        rw [if_neg h]
      have h2 : natToChars n = natToCharsAux (n / 10) [digitChar (n % 10)] := by
        rw [natToChars]
        conv_lhs => rw [natToCharsAux]
        rw [if_neg h]
      rw [h1, ih (n / 10) hlt, h2, ih (n / 10) hlt]
      simp

theorem natToChars_split (n : Nat) (h : ¬n < 10) :
    natToChars n = natToChars (n / 10) ++ [digitChar (n % 10)] := by
  rw [natToChars]
  conv_lhs => rw [natToCharsAux]
  rw [if_neg h, natToCharsAux_eq (n / 10) [digitChar (n % 10)]]

theorem natToChars_small (n : Nat) (h : n < 10) :
    natToChars n = [digitChar n] := by
  rw [natToChars]
  conv_lhs => rw [natToCharsAux]
  rw [if_pos h]

theorem digitVal_digitChar (d : Nat) (h : d < 10) :
    digitVal (digitChar d) = some d := by
  interval_cases d <;> decide

theorem digitChar_mem (d : Nat) :
    digitChar d ∈ (['0', '1', '2', '3', '4', '5', '6', '7', '8', '9'] : List Char) := by
  unfold digitChar
  repeat' split
  all_goals decide

theorem natToChars_digits (n : Nat) :
    ∀ c ∈ natToChars n,
      c ∈ (['0', '1', '2', '3', '4', '5', '6', '7', '8', '9'] : List Char) := by
  induction n using Nat.strong_induction_on with
  | _ n ih =>
    intro c hc
    by_cases h : n < 10
    · rw [natToChars_small n h] at hc
      rcases List.mem_cons.mp hc with rfl | hnil
      · exact digitChar_mem n
      · cases hnil
    · rw [natToChars_split n h] at hc
      rcases List.mem_append.mp hc with hleft | hright
      · exact ih (n / 10) (Nat.div_lt_self (by omega) (by omega)) c hleft
      · rcases List.mem_cons.mp hright with rfl | hnil
        · exact digitChar_mem (n % 10)
        · cases hnil

theorem natToChars_ne_nil (n : Nat) : natToChars n ≠ [] := by
  by_cases h : n < 10
  · rw [natToChars_small n h]; simp
  · rw [natToChars_split n h]; simp

theorem intToChars_chars (m : Int) :
    ∀ c ∈ intToChars m,
      c ∈ ('-' :: ['0', '1', '2', '3', '4', '5', '6', '7', '8', '9'] : List Char) := by
  intro c hc
  unfold intToChars at hc
  by_cases h : m < 0
  · rw [if_pos h] at hc
    rcases List.mem_cons.mp hc with rfl | hm
    · exact List.mem_cons_self _ _
    · exact List.mem_cons_of_mem _ (natToChars_digits _ c hm)
  · rw [if_neg h] at hc
    exact List.mem_cons_of_mem _ (natToChars_digits _ c hc)

theorem digitsGo_append :
    ∀ (xs ys : List Char) (a : Nat),
      digitsGo a (xs ++ ys) = (digitsGo a xs).bind (fun m => digitsGo m ys) := by
  intro xs
  induction xs with
  | nil => intro ys a; rfl
  | cons c xs ih =>
    intro ys a
    show digitsGo a (c :: (xs ++ ys)) = (digitsGo a (c :: xs)).bind _
    cases hdv : digitVal c with
    | some d => simp [digitsGo, hdv, ih]
    | none => simp [digitsGo, hdv]

theorem digitsGo_natToChars (n : Nat) :
    ∀ a, digitsGo a (natToChars n) = some (a * 10 ^ (natToChars n).length + n) := by
  induction n using Nat.strong_induction_on with
  | _ n ih =>
    intro a
    by_cases h : n < 10
    · rw [natToChars_small n h]
      have hd := digitVal_digitChar n h
      simp [digitsGo, hd]
    · have hlt : n / 10 < n := Nat.div_lt_self (by omega) (by omega)
      have hd : digitVal (digitChar (n % 10)) = some (n % 10) :=
        digitVal_digitChar (n % 10) (Nat.mod_lt n (by omega))
      rw [natToChars_split n h, digitsGo_append, ih (n / 10) hlt a]
      simp only [Option.some_bind, digitsGo, hd]
      have hlen : (natToChars (n / 10) ++ [digitChar (n % 10)]).length =
          (natToChars (n / 10)).length + 1 := by simp
      rw [hlen, pow_succ]
      congr 1
      have hmod : n / 10 * 10 + n % 10 = n := by omega
      calc (a * 10 ^ (natToChars (n / 10)).length + n / 10) * 10 + n % 10
          = a * (10 ^ (natToChars (n / 10)).length * 10) + (n / 10 * 10 + n % 10) := by ring
        _ = a * (10 ^ (natToChars (n / 10)).length * 10) + n := by rw [hmod]

theorem charsToNat_natToChars (n : Nat) : charsToNat (natToChars n) = some n := by
  rw [charsToNat, if_neg (natToChars_ne_nil n), digitsGo_natToChars n 0]
  simp

theorem charsToInt_intToChars (m : Int) : charsToInt (intToChars m) = some m := by
  by_cases h : m < 0
  · have hform : intToChars m = '-' :: natToChars (-m).toNat := by
      rw [intToChars, if_pos h]
    rw [hform]
    show (if ('-' : Char) = '-' then (charsToNat (natToChars (-m).toNat)).map (fun n => -(n : Int))
         else (charsToNat ('-' :: natToChars (-m).toNat)).map (fun n => (n : Int))) = some m
    rw [if_pos rfl, charsToNat_natToChars]
    have hcast : (((-m).toNat : Nat) : Int) = -m := Int.toNat_of_nonneg (by omega)
    show some (-(((-m).toNat : Nat) : Int)) = some m
    rw [hcast, neg_neg]
  · have hform : intToChars m = natToChars m.toNat := by
      rw [intToChars, if_neg h]
    rw [hform]
    cases hnc : natToChars m.toNat with
    | nil => exact absurd hnc (natToChars_ne_nil _)
    | cons c cs =>
      have hcd : c ∈ (['0', '1', '2', '3', '4', '5', '6', '7', '8', '9'] : List Char) :=
        natToChars_digits m.toNat c (hnc ▸ List.mem_cons_self c cs)
      have hcne : ¬c = '-' := by
        intro he
        subst he
        exact absurd hcd (by decide)
      show (if c = '-' then (charsToNat cs).map (fun n => -(n : Int))
           else (charsToNat (c :: cs)).map (fun n => (n : Int))) = some m
      rw [if_neg hcne, ← hnc, charsToNat_natToChars]
      have hcast : ((m.toNat : Nat) : Int) = m := Int.toNat_of_nonneg (by omega)
      show some ((m.toNat : Nat) : Int) = some m
      rw [hcast]

theorem splitOnChar_ne_nil (sep : Char) : ∀ l, splitOnChar sep l ≠ [] := by
  intro l
  cases l with
  | nil => simp [splitOnChar]
  | cons c cs =>
    cases h : splitOnChar sep cs with
    | nil => simp [splitOnChar, h]
    | cons r rs =>
      by_cases hc : c = sep <;> simp [splitOnChar, h, hc]

theorem splitOnChar_nosep (sep : Char) :
    ∀ x, sep ∉ x → splitOnChar sep x = [x] := by
  intro x
  induction x with
  | nil => intro _; rfl
  | cons c cs ih =>
    intro h
    have hc : ¬c = sep := fun he => h (he ▸ List.mem_cons_self c cs)
    have hcs : sep ∉ cs := fun hm => h (List.mem_cons_of_mem c hm)
    simp [splitOnChar, ih hcs, hc]

theorem splitOnChar_append (sep : Char) :
    ∀ (x t : List Char), sep ∉ x →
      splitOnChar sep (x ++ sep :: t) = x :: splitOnChar sep t := by
  intro x
  induction x with
  | nil =>
    intro t _
    show splitOnChar sep (sep :: t) = [] :: splitOnChar sep t
    cases h : splitOnChar sep t with
    | nil => exact absurd h (splitOnChar_ne_nil sep t)
    | cons r rs => simp [splitOnChar, h]
  | cons c cs ih =>
    intro t h
    have hc : ¬c = sep := fun he => h (he ▸ List.mem_cons_self c cs)
    have hcs : sep ∉ cs := fun hm => h (List.mem_cons_of_mem c hm)
    show splitOnChar sep (c :: (cs ++ sep :: t)) = (c :: cs) :: splitOnChar sep t
    have hrec := ih t hcs
    cases h2 : splitOnChar sep t with
    | nil => exact absurd h2 (splitOnChar_ne_nil sep t)
    | cons r rs =>
      rw [h2] at hrec
      simp [splitOnChar, hrec, hc]

theorem splitOnChar_joinChar (sep : Char) :
    ∀ parts, parts ≠ [] → (∀ p ∈ parts, sep ∉ p) →
      splitOnChar sep (joinChar sep parts) = parts := by
  intro parts
  induction parts with
  | nil => intro h _; exact absurd rfl h
  | cons x rest ih =>
    intro _ hall
    cases rest with
    | nil =>
      show splitOnChar sep x = [x]
      exact splitOnChar_nosep sep x (hall x (List.mem_cons_self x []))
    | cons y rest2 =>
      show splitOnChar sep (x ++ sep :: joinChar sep (y :: rest2)) = x :: y :: rest2
      rw [splitOnChar_append sep x _ (hall x (List.mem_cons_self x _))]
      rw [ih (by simp) (fun p hp => hall p (List.mem_cons_of_mem x hp))]

theorem joinChar_append_empty (sep : Char) :
    ∀ (parts : List (List Char)), parts ≠ [] →
      joinChar sep parts ++ [sep] = joinChar sep (parts ++ [[]]) := by
  intro parts
  induction parts with
  | nil => intro h; exact absurd rfl h
  | cons x rest ih =>
    intro _
    cases rest with
    | nil => rfl
    | cons y rest2 =>
      show (x ++ sep :: joinChar sep (y :: rest2)) ++ [sep] =
          x ++ sep :: joinChar sep ((y :: rest2) ++ [[]])
      rw [← ih (by simp)]
      simp

theorem joinChar_two_ne_nil (sep : Char) (x y : List Char) (zs : List (List Char)) :
    joinChar sep (x :: y :: zs) ≠ [] := by
  show x ++ sep :: joinChar sep (y :: zs) ≠ []
  simp

theorem mem_joinChar (sep : Char) :
    ∀ (parts : List (List Char)) (c : Char),
      c ∈ joinChar sep parts → c = sep ∨ ∃ p ∈ parts, c ∈ p := by
  intro parts
  induction parts with
  | nil => intro c hc; cases hc
  | cons x rest ih =>
    intro c hc
    cases rest with
    | nil => exact Or.inr ⟨x, List.mem_cons_self x [], hc⟩
    | cons y rest2 =>
      have hc2 : c ∈ x ++ sep :: joinChar sep (y :: rest2) := hc
      rcases List.mem_append.mp hc2 with hx | hrest
      · exact Or.inr ⟨x, List.mem_cons_self x _, hx⟩
      · rcases List.mem_cons.mp hrest with he | hj
        · exact Or.inl he
        · rcases ih c hj with hs | ⟨p, hp, hcp⟩
          · exact Or.inl hs
          · exact Or.inr ⟨p, List.mem_cons_of_mem x hp, hcp⟩

theorem digit_not_special :
    ∀ c ∈ ('-' :: ['0', '1', '2', '3', '4', '5', '6', '7', '8', '9'] : List Char),
      c ∉ ([',', '\n', '\r', '"'] : List Char) := by decide

theorem studentCells_plain (s : Student) (hp : plainStudent s) :
    ∀ cell ∈ studentCells s, ∀ c ∈ cell, c ∉ ([',', '\n', '\r', '"'] : List Char) := by
  obtain ⟨h1, h2, h3, h4, h5, h6⟩ := hp
  intro cell hcell c hc
  simp only [studentCells, List.mem_cons, List.not_mem_nil, or_false] at hcell
  rcases hcell with rfl | rfl | rfl | rfl | rfl | rfl | rfl | rfl
  · exact h1.2 c hc
  · exact h2.2.2 c hc
  · exact h3.2.2 c hc
  · exact digit_not_special c (intToChars_chars s.age c hc)
  · exact h4.2.2 c hc
  · exact h5.2.2 c hc
  · exact h6.2.2 c hc
  · exact digit_not_special c (intToChars_chars s.score c hc)

theorem string_mk_toList (s : String) : String.mk s.toList = s := by
  cases s
  rfl

theorem parseRow_joinChar (s : Student) (hp : plainStudent s) :
    parseRow (joinChar ',' (studentCells s)) = some s := by
  have hsplit : splitOnChar ',' (joinChar ',' (studentCells s)) = studentCells s := by
    apply splitOnChar_joinChar
    · simp [studentCells]
    · intro p hpmem hcm
      exact studentCells_plain s hp p hpmem ',' hcm (by decide)
  have hguard : rowReinterpreted s.first_name.toList s.last_name.toList
      s.grade.toList s.email.toList s.enrollment_date.toList = false := by
    rw [rowReinterpreted, hp.2.1.1, hp.2.2.1.1, hp.2.2.2.1.1, hp.2.2.2.2.1.1,
        hp.2.2.2.2.2.1]
    rfl
  rw [parseRow, hsplit]
  simp only [studentCells]
  rw [hguard]
  simp only [Bool.false_eq_true, if_false]
  rw [charsToInt_intToChars, charsToInt_intToChars]
  simp only [string_mk_toList]

theorem parseRows_map :
    ∀ (rows : List Student), (∀ r ∈ rows, plainStudent r) →
      parseRows (rows.map (fun r => joinChar ',' (studentCells r))) = some rows := by
  intro rows
  induction rows with
  | nil => intro _; rfl
  | cons r rest ih =>
    intro hp
    have h1 := parseRow_joinChar r (hp r (List.mem_cons_self r rest))
    have h2 := ih (fun x hx => hp x (List.mem_cons_of_mem r hx))
    simp [parseRows, h1, h2]

theorem rowLine_ne_nil (s : Student) : joinChar ',' (studentCells s) ≠ [] :=
  joinChar_two_ne_nil ',' _ _ _

theorem rowLine_no_newline (s : Student) (hp : plainStudent s) :
    '\n' ∉ joinChar ',' (studentCells s) := by
  intro hc
  rcases mem_joinChar ',' (studentCells s) '\n' hc with he | ⟨p, hpmem, hcp⟩
  · cases he
  · exact studentCells_plain s hp p hpmem '\n' hcp (by decide)

/-- C7: store round-trip fidelity — loading with no backing file yields the
empty table with the fixed column set in the fixed order, and for every
table of plain records (text fields free of the CSV delimiter, quote, line
terminators and `read_csv` missing-value sentinels, and — for the columns
other than the `dtype=str` identifier — not numeric-, infinity- or
boolean-looking, so `read_csv` type inference keeps them as text), saving
and loading again yields exactly the same table; in particular the
identifier column is exempt from type inference and survives as raw text
(`"042"` stays `"042"`, not 42). Tables produced by `loadStudents` are of
exactly this shape, so `save(load())` is idempotent. -/
theorem c7_store_roundtrip (rows : List Student)
    (hp : ∀ r ∈ rows, plainStudent r) :
    loadStudents none = some ⟨colNames, []⟩ ∧
    loadStudents (some (saveStudents rows)) = some ⟨colNames, rows⟩ := by
  refine ⟨rfl, ?_⟩
  have hlines : splitOnChar '\n' (saveStudents rows) =
      (joinChar ',' headerCells ::
        rows.map (fun r => joinChar ',' (studentCells r))) ++ [[]] := by
    rw [saveStudents, joinChar_append_empty '\n' _ (by simp)]
    apply splitOnChar_joinChar
    · simp
    · intro p hp2
      rcases List.mem_append.mp hp2 with hmain | hnil
      · rcases List.mem_cons.mp hmain with rfl | hrow
        · decide
        · rcases List.mem_map.mp hrow with ⟨r, hr, rfl⟩
          exact rowLine_no_newline r (hp r hr)
      · rcases List.mem_cons.mp hnil with rfl | hbad
        · simp
        · cases hbad
  have hfilter :
      (((joinChar ',' headerCells ::
          rows.map (fun r => joinChar ',' (studentCells r))) ++ [[]]).filter
        (fun l => l ≠ [])) =
      joinChar ',' headerCells ::
        rows.map (fun r => joinChar ',' (studentCells r)) := by
    rw [List.filter_append]
    have hmain : ((joinChar ',' headerCells ::
        rows.map (fun r => joinChar ',' (studentCells r))).filter
          (fun l => decide (l ≠ []))) =
        joinChar ',' headerCells ::
          rows.map (fun r => joinChar ',' (studentCells r)) := by
      apply List.filter_eq_self.mpr
      intro l hl
      rcases List.mem_cons.mp hl with rfl | hrow
      · simp [headerCells, colNames, joinChar]
      · rcases List.mem_map.mp hrow with ⟨r, _, rfl⟩
        simpa using rowLine_ne_nil r
    have hnil : (([[]] : List (List Char)).filter (fun l => decide (l ≠ []))) = [] := rfl
    rw [hmain, hnil, List.append_nil]
  have hheader : ((splitOnChar ',' (joinChar ',' headerCells)).map String.mk) =
      colNames := by decide
  rw [loadStudents, hlines, hfilter]
  simp only [parseRows_map rows hp, hheader]

/-- C7 witness: the record with the numeric-looking identifier `"042"`
round-trips unchanged through save and load, and the absent backing file
loads as the empty fixed-column table. -/
theorem c7_store_roundtrip_witness :
    loadStudents none = some ⟨colNames, []⟩ ∧
    loadStudents (some (saveStudents [stA, stB])) = some ⟨colNames, [stA, stB]⟩ := by
  exact c7_store_roundtrip [stA, stB] (by decide)

theorem setKey_eq_append (r : List (String × PdVal)) (K : String) (v : PdVal)
    (h : ∀ kv ∈ r, kv.1 ≠ K) : setKey r K v = r ++ [(K, v)] := by
  have hany : r.any (fun kv => kv.1 = K) = false := by
    rw [List.any_eq_false]
    intro kv hkv
    simpa using h kv hkv
  rw [setKey, hany]
  simp

theorem rowGet_append_last (K : String) (v : PdVal) :
    ∀ (r : List (String × PdVal)), (∀ kv ∈ r, kv.1 ≠ K) →
      rowGet (r ++ [(K, v)]) K = v := by
  intro r
  induction r with
  | nil => intro _; simp [rowGet, List.find?]
  | cons kv r ih =>
    intro h
    have hk : ¬kv.1 = K := h kv (List.mem_cons_self kv r)
    have hrest := ih (fun x hx => h x (List.mem_cons_of_mem kv hx))
    show rowGet (kv :: (r ++ [(K, v)])) K = v
    rw [rowGet, List.find?]
    have hd : (decide (kv.1 = K)) = false := by simpa using hk
    rw [hd]
    exact hrest

theorem rowGet_append_ne (K c : String) (v : PdVal) (hne : c ≠ K) :
    ∀ (r : List (String × PdVal)), rowGet (r ++ [(K, v)]) c = rowGet r c := by
  intro r
  induction r with
  | nil =>
    have hKc : (decide (K = c)) = false := by
      simp only [decide_eq_false_iff_not]
      intro he
      exact hne he.symm
    simp [rowGet, List.find?, hKc]
  | cons kv r ih =>
    show rowGet (kv :: (r ++ [(K, v)])) c = rowGet (kv :: r) c
    rw [rowGet, rowGet, List.find?, List.find?]
    cases hd : decide (kv.1 = c) with
    | true => rfl
    | false => exact ih

theorem zipMask_forall₂ (K : String) (v : PdVal) (id : String) :
    ∀ (rows : List (List (String × PdVal))),
      (∀ r ∈ rows, ∀ kv ∈ r, kv.1 ≠ K) →
      List.Forall₂ (fun r rr =>
          rowGet rr K = (if rowGet r "student_id" = PdVal.str id then v else PdVal.nan) ∧
          ∀ c, c ≠ K → rowGet rr c = rowGet r c)
        rows
        ((rows.zip (rows.map (fun r => decide (rowGet r "student_id" = PdVal.str id)))).map
          (fun rm => if rm.2 then setKey rm.1 K v else rm.1 ++ [(K, PdVal.nan)])) := by
  intro rows
  induction rows with
  | nil => intro _; exact List.Forall₂.nil
  | cons r rest ih =>
    intro h
    have hr := h r (List.mem_cons_self r rest)
    refine List.Forall₂.cons ?_ (ih (fun x hx => h x (List.mem_cons_of_mem r hx)))
    show (rowGet (if (decide (rowGet r "student_id" = PdVal.str id)) = true
          then setKey r K v else r ++ [(K, PdVal.nan)]) K =
        if rowGet r "student_id" = PdVal.str id then v else PdVal.nan) ∧
      ∀ c, c ≠ K →
        rowGet (if (decide (rowGet r "student_id" = PdVal.str id)) = true
          then setKey r K v else r ++ [(K, PdVal.nan)]) c = rowGet r c
    by_cases hm : rowGet r "student_id" = PdVal.str id
    · have hm' : (decide (rowGet r "student_id" = PdVal.str id)) = true := by
        simpa using hm
      have hset := setKey_eq_append r K v hr
      rw [if_pos hm', hset]
      refine ⟨?_, fun c hc => rowGet_append_ne K c v hc r⟩
      rw [if_pos hm]
      exact rowGet_append_last K v r hr
    · have hm' : ¬(decide (rowGet r "student_id" = PdVal.str id)) = true := by
        simpa using hm
      rw [if_neg hm']
      refine ⟨?_, fun c hc => rowGet_append_ne K c PdVal.nan hc r⟩
      rw [if_neg hm]
      exact rowGet_append_last K PdVal.nan r hr

/-- C9 (implicit): `update` does not enforce the fixed schema — with a
`changes` mapping whose key is not an existing column, the call still
succeeds and the frame gains a new column of that name, holding the given
value for the matched record and a missing value for every other record,
while every existing column keeps its cells. -/
theorem c9_update_new_column (df : DFrame) (id K : String) (v : PdVal)
    (hK : df.columns.contains K = false)
    (hrows : ∀ r ∈ df.rows, ∀ kv ∈ r, kv.1 ≠ K)
    (hpresent : df.rows.any (fun r => pdToStr (rowGet r "student_id") = id) = true) :
    (dfUpdateStudent df id [(K, v)]).1 = true ∧
    (dfUpdateStudent df id [(K, v)]).2.columns = df.columns ++ [K] ∧
    List.Forall₂ (fun r rr =>
        rowGet rr K = (if rowGet r "student_id" = PdVal.str id then v else PdVal.nan) ∧
        ∀ c, c ≠ K → rowGet rr c = rowGet r c)
      df.rows (dfUpdateStudent df id [(K, v)]).2.rows := by
  have hres : dfUpdateStudent df id [(K, v)] =
      (true, dfSetColMask df
        (df.rows.map (fun r => decide (rowGet r "student_id" = PdVal.str id))) K v) := by
    rw [dfUpdateStudent, if_pos hpresent]
    rfl
  rw [hres]
  refine ⟨rfl, ?_, ?_⟩
  · show (if df.columns.contains K = true then df.columns else df.columns ++ [K]) =
        df.columns ++ [K]
    rw [hK]
    simp
  · have hgoal := zipMask_forall₂ K v id df.rows hrows
    simp only [dfSetColMask, hK, Bool.false_eq_true, if_false]
    exact hgoal

/-- C9 witness: on a two-row frame whose only column is `student_id`,
updating row `"1"` with the unknown key `nick` succeeds, appends the new
column, sets it to the given value on the matched row and to a missing
value on the other row. -/
theorem c9_update_new_column_witness :
    (dfUpdateStudent ⟨["student_id"],
        [[("student_id", PdVal.str "1")], [("student_id", PdVal.str "2")]]⟩
      "1" [("nick", PdVal.str "x")]).1 = true ∧
    (dfUpdateStudent ⟨["student_id"],
        [[("student_id", PdVal.str "1")], [("student_id", PdVal.str "2")]]⟩
      "1" [("nick", PdVal.str "x")]).2.columns = ["student_id"] ++ ["nick"] ∧
    List.Forall₂ (fun r rr =>
        rowGet rr "nick" =
          (if rowGet r "student_id" = PdVal.str "1" then PdVal.str "x" else PdVal.nan) ∧
        ∀ c, c ≠ "nick" → rowGet rr c = rowGet r c)
      [[("student_id", PdVal.str "1")], [("student_id", PdVal.str "2")]]
      (dfUpdateStudent ⟨["student_id"],
        [[("student_id", PdVal.str "1")], [("student_id", PdVal.str "2")]]⟩
      "1" [("nick", PdVal.str "x")]).2.rows := by
  exact c9_update_new_column
    ⟨["student_id"], [[("student_id", PdVal.str "1")], [("student_id", PdVal.str "2")]]⟩
    "1" "nick" (PdVal.str "x") (by decide) (by decide) (by decide)

end StudentApp
